import Mathlib

/-!
Verification development for the ZendWallet transaction-construction engine
(`bitcoin/zend` package: coin selection, unsigned-transaction building,
fee estimation, multisig skeletons, fee bumping, watch-address queueing).

Shallow embedding conventions:
* bytes are `Nat` values (< 256 in every concrete instance), byte strings are
  `List Nat`;
* `btcutil.Amount` / `int64` values are `Int` (no computation here approaches
  the `int64` range, so wraparound is not modelled);
* RPC calls to the `zend` node are supplied as explicit parameters / fields of
  environment structures;
* fallible Go code (returning `error`, or panicking) becomes `Except`.

The vendored helper libraries that the wallet calls
(`btcsuite/btcwallet/wallet/txrules`, `btcsuite/btcutil/coinset`,
`btcsuite/btcutil/txsort`, `btcsuite/btcd/txscript.ScriptBuilder`,
`OpenBazaar/spvwallet` size estimation) are embedded below from their
upstream sources, since the wallet's behaviour is defined through them.
-/

/-- Decidable equality of `Except` results, so that concrete runs of the
embedded operations can be checked by `decide`. -/
instance instDecidableEqExcept {e a : Type} [DecidableEq e] [DecidableEq a] :
    DecidableEq (Except e a) := fun x y =>
  match x, y with
  | .error u, .error v =>
    if h : u = v then .isTrue (by rw [h]) else .isFalse (by intro hc; cases hc; exact h rfl)
  | .ok u, .ok v =>
    if h : u = v then .isTrue (by rw [h]) else .isFalse (by intro hc; cases hc; exact h rfl)
  | .error _, .ok _ => .isFalse (by intro hc; cases hc)
  | .ok _, .error _ => .isFalse (by intro hc; cases hc)

namespace Zend

/-- A transaction input: previous-outpoint hash (32 little-endian bytes),
previous-outpoint index, signature script, sequence (`wire.TxIn`). -/
structure TxIn where
  prevHash : List Nat
  prevIndex : Nat
  sigScript : List Nat
  sequence : Nat
  deriving DecidableEq, Repr

/-- A transaction output: value in satoshi and public-key script
(`wire.TxOut`). -/
structure TxOut where
  value : Int
  pkScript : List Nat
  deriving DecidableEq, Repr

/-- A transaction (`wire.MsgTx`): version, inputs, outputs, lock time. -/
structure MsgTx where
  version : Nat
  txIn : List TxIn
  txOut : List TxOut
  lockTime : Nat
  deriving DecidableEq, Repr

/-- `wire.TxVersion` -/
def txVersion : Nat := 1

/-- `wire.VarIntSerializeSize`: number of bytes of the compact-size encoding
of `n`. -/
def varIntSerializeSize (n : Nat) : Nat :=
  if n < 0xfd then 1
  else if n ≤ 0xffff then 3
  else if n ≤ 0xffffffff then 5
  else 9

/-- Serialized size of one `wire.TxOut`: 8 value bytes plus the compact-size
length of the script plus the script itself. -/
def txOutSerializeSize (o : TxOut) : Nat :=
  8 + varIntSerializeSize o.pkScript.length + o.pkScript.length

/-- `SumOutputSerializeSizes` from the vendored size estimator. -/
def sumOutputSerializeSizes (outs : List TxOut) : Nat :=
  outs.foldl (fun acc o => acc + txOutSerializeSize o) 0

/-- Input-script type selector of the vendored `EstimateSerializeSize`
(`spvwallet.InputType`; the `zend` package's local copy uses the same
constants, with `0 = P2PKH`). -/
inductive InputType where
  | p2pkh
  | p2sh1of2
  | p2sh2of3
  | p2shMultisig
  deriving DecidableEq, Repr

/-- Worst-case size of an input redeeming a compressed P2PKH output:
outpoint (32+4) + script-length byte + signature script (1+73+1+33) + sequence. -/
def redeemP2PKHInputSize : Nat := 32 + 4 + 1 + (1 + 73 + 1 + 33) + 4

/-- Worst-case size of an input redeeming a 1-of-2 multisig P2SH output. -/
def redeemP2SH1of2InputSize : Nat := 32 + 4 + 1 + 1 + (1 + 1 + 72 + 1 + 71) + 4

/-- Worst-case size of an input redeeming a 2-of-3 multisig P2SH output. -/
def redeemP2SH2of3InputSize : Nat := 32 + 4 + 1 + 1 + (1 + 1 + 72 + 1 + 72 + 1 + 105) + 4

/-- `P2PKHPkScriptSize`: OP_DUP OP_HASH160 OP_DATA_20 <20 bytes> OP_EQUALVERIFY
OP_CHECKSIG. -/
def p2pkhPkScriptSize : Nat := 25

/-- `P2PKHOutputSize`: value bytes + script-length byte + P2PKH script. -/
def p2pkhOutputSize : Nat := 8 + 1 + p2pkhPkScriptSize

/-- Per-input worst-case size constant chosen by `EstimateSerializeSize` for
each input type. -/
def inputTypeSize : InputType → Nat
  | .p2pkh => redeemP2PKHInputSize
  | .p2sh1of2 => redeemP2SH1of2InputSize
  | .p2sh2of3 => redeemP2SH2of3InputSize
  | .p2shMultisig => 0

/-- `EstimateSerializeSize(inputCount, txOuts, addChangeOutput, inputType)`:
worst-case serialize size of a signed transaction spending `inputCount`
inputs of the given type and paying `txOuts`, plus an optional P2PKH change
output. -/
def estimateSerializeSize (inputCount : Nat) (txOuts : List TxOut)
    (addChangeOutput : Bool) (inputType : InputType) : Nat :=
  let changeSize := if addChangeOutput then p2pkhOutputSize else 0
  let outputCount := if addChangeOutput then txOuts.length + 1 else txOuts.length
  10 + varIntSerializeSize inputCount + varIntSerializeSize outputCount +
    inputCount * inputTypeSize inputType +
    sumOutputSerializeSizes txOuts + changeSize

/-- `txrules.DefaultRelayFeePerKb = 1e3`. -/
def defaultRelayFeePerKb : Int := 1000

/-- `txrules.IsDustAmount(amount, scriptSize, relayFeePerKb)`: an output is
dust when the amount divided by three times its total network cost (output
size plus the 148-byte redeeming-input estimate) is below the relay fee. -/
def isDustAmount (amount : Int) (scriptSize : Nat) (relayFeePerKb : Int) : Bool :=
  let totalSize : Int := 8 + (varIntSerializeSize scriptSize : Int) + (scriptSize : Int) + 148
  decide (amount * 1000 / (3 * totalSize) < relayFeePerKb)

/-- `btcutil.MaxSatoshi` in satoshi. -/
def maxSatoshi : Int := 21000000 * 100000000

/-- `txrules.FeeForSerializeSize(relayFeePerKb, txSerializeSize)`. -/
def feeForSerializeSize (relayFeePerKb : Int) (txSerializeSize : Nat) : Int :=
  let fee := relayFeePerKb * (txSerializeSize : Int) / 1000
  let fee := if fee = 0 ∧ 0 < relayFeePerKb then relayFeePerKb else fee
  if fee < 0 ∨ maxSatoshi < fee then maxSatoshi else fee

/-- Strict lexicographic order on byte strings (`bytes.Compare ... == -1`). -/
def bytesLt : List Nat → List Nat → Bool
  | [], [] => false
  | [], _ :: _ => true
  | _ :: _, [] => false
  | a :: as, b :: bs => if a < b then true else if b < a then false else bytesLt as bs

/-- BIP-69 input order (`txsort.sortableInputSlice.Less`): equal previous-output
hashes compare by index; otherwise the hashes are reversed to big-endian and
compared bytewise. -/
def bip69InLt (a b : TxIn) : Bool :=
  if a.prevHash = b.prevHash then decide (a.prevIndex < b.prevIndex)
  else bytesLt a.prevHash.reverse b.prevHash.reverse

/-- BIP-69 output order (`txsort.sortableOutputSlice.Less`): by value, then by
script bytes. -/
def bip69OutLt (a b : TxOut) : Bool :=
  if a.value = b.value then bytesLt a.pkScript b.pkScript
  else decide (a.value < b.value)

/-- Insert `x` into `l` before the first element it is not strictly after,
relative to the strict order `lt`. -/
def insertByLt {α : Type} (lt : α → α → Bool) (x : α) : List α → List α
  | [] => [x]
  | y :: ys => if lt y x then y :: insertByLt lt x ys else x :: y :: ys

/-- Deterministic comparison sort by the strict order `lt`.  `sort.Sort` in Go
is an unstable deterministic sort; every tie under the two BIP-69 orders used
here is between equal elements, so any deterministic sort produces the same
list. -/
def sortByLt {α : Type} (lt : α → α → Bool) : List α → List α
  | [] => []
  | x :: xs => insertByLt lt x (sortByLt lt xs)

/-- `txsort.InPlaceSort`: sort inputs and outputs into BIP-69 order. -/
def txsortInPlaceSort (tx : MsgTx) : MsgTx :=
  { tx with txIn := sortByLt bip69InLt tx.txIn, txOut := sortByLt bip69OutLt tx.txOut }

/-- A spendable coin as gathered from the node's unspent list
(`spvwallet.NewCoin`): transaction hash, output index, value, confirmation
count, and owning script. -/
structure Coin where
  hash : List Nat
  index : Nat
  value : Int
  numConfs : Int
  pkScript : List Nat
  deriving DecidableEq, Repr

/-- `Coin.ValueAge`: value weighted by confirmations, the sort key of
`coinset.MaxValueAgeCoinSelector`. -/
def Coin.valueAge (c : Coin) : Int := c.value * c.numConfs

/-- Strict descending value-age order (`sort.Reverse(byValueAge(...))`). -/
def byValueAgeDescLt (a b : Coin) : Bool := decide (b.valueAge < a.valueAge)

/-- Total value of a coin list (`total += c.Value()` accumulation). -/
def sumVal (l : List Coin) : Int := l.foldl (fun acc c => acc + c.value) 0

/-- Errors produced by coin selection and transaction construction. -/
inductive TxErr where
  /-- `coinset.ErrCoinsNoSelectionAvailable`, surfaced by the wallet's input
  source as `wallet.ErrorInsuffientFunds`. -/
  | insufficientFundsSelect
  /-- `"insufficient funds available to construct transaction"` inside
  `NewUnsignedTransaction`. -/
  | insufficientFunds
  /-- `"fee estimation requires change scripts no larger than P2PKH output
  scripts"`. -/
  | oversizedChangeScript
  /-- failure of the change-source callback. -/
  | changeSourceFail
  /-- `wallet.ErrorDustAmount` from `buildTx`. -/
  | dustAmount
  /-- RPC failure fetching the replay-protection block hash. -/
  | blockHashFail
  /-- `"Failed to sign transaction"` from `buildTx`. -/
  | signFail
  /-- fuel exhaustion sentinel of the embedded fee-negotiation loop (the Go
  loop has no such exit; the termination theorem shows enough fuel avoids it). -/
  | fuelExhausted
  deriving DecidableEq, Repr

/-- The prefix-scan of `coinset.MinIndexCoinSelector.CoinSelect` (which
`MaxValueAgeCoinSelector` delegates to after sorting): push coins in order,
returning the selection and its total as soon as
`satisfiesTargetValue` holds (`total == target || total >= target+minChange`),
visiting at most `maxInputs` coins. -/
def minIndexScan (target minChange : Int) :
    Nat → List Coin → Int → List Coin → Except TxErr (List Coin × Int)
  | 0, _, _, _ => .error .insufficientFundsSelect
  | _ + 1, [], _, _ => .error .insufficientFundsSelect
  | maxInputs + 1, c :: rest, totalSoFar, acc =>
    let total := totalSoFar + c.value
    let acc := acc ++ [c]
    if total = target ∨ target + minChange ≤ total then .ok (acc, total)
    else minIndexScan target minChange maxInputs rest total acc

/-- `coinset.MaxValueAgeCoinSelector.CoinSelect`: sort the coins descending by
value-age, then select the first sufficient prefix. -/
def maxValueAgeCoinSelect (maxInputs : Nat) (minChange : Int) (target : Int)
    (coins : List Coin) : Except TxErr (List Coin × Int) :=
  minIndexScan target minChange maxInputs (sortByLt byValueAgeDescLt coins) 0 []

/-- The input source closed over in `ZendWallet.buildTx`: select coins with
`MaxValueAgeCoinSelector{MaxInputs: 10000, MinChangeAmount: 0}`, mapping
selector failure to `wallet.ErrorInsuffientFunds`; build one sequence-0 input
per selected coin and total their values.  (The Go closure also builds
private-key maps for a commented-out local signing path, and leaves the
returned `scripts` slice nil; the key maps are not modelled.) -/
def inputSource (coins : List Coin) (target : Int) :
    Except TxErr (Int × List TxIn × List (List Nat)) :=
  match maxValueAgeCoinSelect 10000 0 target coins with
  | .error _ => .error .insufficientFundsSelect
  | .ok (selected, _) =>
    let total := sumVal selected
    let inputs := selected.map fun c =>
      { prevHash := c.hash, prevIndex := c.index, sigScript := [], sequence := 0 : TxIn }
    .ok (total, inputs, [])

/-- The unsigned-transaction record returned by `NewUnsignedTransaction`
(`txauthor.AuthoredTx`). -/
structure AuthoredTx where
  tx : MsgTx
  prevScripts : List (List Nat)
  totalInput : Int
  changeIndex : Int
  deriving DecidableEq, Repr

/-- The `for { ... }` fee-negotiation loop of `NewUnsignedTransaction`,
indexed by fuel.  One iteration: fetch inputs for `targetAmount + targetFee`;
fail on fetch error or when the fetched amount is short; recompute the fee
from the actual input count; if the remaining amount cannot pay it, retry
with the recomputed fee; otherwise attach a change output exactly when the
change amount is non-zero and not dust, rejecting change scripts larger than
a P2PKH script. -/
def nutLoop (fetchInputs : Int → Except TxErr (Int × List TxIn × List (List Nat)))
    (fetchChange : Except TxErr (List Nat)) (outputs : List TxOut)
    (feePerKb : Int) (targetAmount : Int) :
    Nat → Int → Except TxErr AuthoredTx
  | 0, _ => .error .fuelExhausted
  | fuel + 1, targetFee =>
    match fetchInputs (targetAmount + targetFee) with
    | .error e => .error e
    | .ok (inputAmount, inputs, scripts) =>
      if inputAmount < targetAmount + targetFee then .error .insufficientFunds
      else
        let maxSignedSize := estimateSerializeSize inputs.length outputs true .p2pkh
        let maxRequiredFee := feeForSerializeSize feePerKb maxSignedSize
        let remainingAmount := inputAmount - targetAmount
        if remainingAmount < maxRequiredFee then
          nutLoop fetchInputs fetchChange outputs feePerKb targetAmount fuel maxRequiredFee
        else
          let changeAmount := inputAmount - targetAmount - maxRequiredFee
          if changeAmount ≠ 0 ∧
              isDustAmount changeAmount p2pkhOutputSize defaultRelayFeePerKb = false then
            match fetchChange with
            | .error _ => .error .changeSourceFail
            | .ok changeScript =>
              if p2pkhPkScriptSize < changeScript.length then .error .oversizedChangeScript
              else .ok
                { tx := { version := txVersion, txIn := inputs,
                          txOut := outputs ++ [{ value := changeAmount, pkScript := changeScript }],
                          lockTime := 0 },
                  prevScripts := scripts, totalInput := inputAmount,
                  changeIndex := (outputs.length : Int) }
          else .ok
            { tx := { version := txVersion, txIn := inputs, txOut := outputs, lockTime := 0 },
              prevScripts := scripts, totalInput := inputAmount, changeIndex := -1 }

/-- `NewUnsignedTransaction(outputs, feePerKb, fetchInputs, fetchChange)`:
target amount is the sum of the output values, the initial fee estimate uses
a single placeholder input, then the fee-negotiation loop runs. -/
def newUnsignedTransaction (fuel : Nat) (outputs : List TxOut) (feePerKb : Int)
    (fetchInputs : Int → Except TxErr (Int × List TxIn × List (List Nat)))
    (fetchChange : Except TxErr (List Nat)) : Except TxErr AuthoredTx :=
  let targetAmount := outputs.foldl (fun acc o => acc + o.value) 0
  let estimatedSize := estimateSerializeSize 1 outputs true .p2pkh
  let targetFee := feeForSerializeSize feePerKb estimatedSize
  nutLoop fetchInputs fetchChange outputs feePerKb targetAmount fuel targetFee

/-- Environment of `ZendWallet.buildTx`: the node interactions and repo-level
helpers it consumes.  `payScript` is the result of `PayToAddrScript` for the
destination address (modelled from the spec: a chain-specific output script
carrying the replay-protection payload; only its bytes matter here), and
`coins` is the result of a successful `gatherCoins` pass. -/
structure BuildTxEnv where
  blockHash : Except TxErr (List Nat)
  payScript : List Nat
  coins : List Coin
  feePerByte : Nat
  changeScript : Except TxErr (List Nat)
  signRaw : MsgTx → Except TxErr MsgTx

/-- `ZendWallet.buildTx`: fetch the replay-protection block hash, refuse dust
payment amounts, build the unsigned transaction via `NewUnsignedTransaction`
over the wallet's input source, BIP-69-sort it, and have the node sign it. -/
def buildTx (env : BuildTxEnv) (fuel : Nat) (amount : Int) : Except TxErr MsgTx :=
  match env.blockHash with
  | .error e => .error e
  | .ok _ =>
    if isDustAmount amount env.payScript.length defaultRelayFeePerKb then .error .dustAmount
    else
      let feePerKB : Int := (env.feePerByte : Int) * 1000
      let out : TxOut := { value := amount, pkScript := env.payScript }
      match newUnsignedTransaction fuel [out] feePerKB (inputSource env.coins)
          env.changeScript with
      | .error e => .error e
      | .ok authoredTx =>
        let sorted := txsortInPlaceSort authoredTx.tx
        match env.signRaw sorted with
        | .error _ => .error .signFail
        | .ok tx => .ok tx

/-- A partial multisig signature (`wallet.Signature`): input index plus
signature bytes. -/
structure Signature where
  inputIndex : Nat
  signature : List Nat
  deriving DecidableEq, Repr

/-- A multisig transaction input argument (`wallet.TransactionInput`). -/
structure TransactionInput where
  outpointHash : List Nat
  outpointIndex : Nat
  deriving DecidableEq, Repr

/-- A multisig transaction output argument (`wallet.TransactionOutput`). -/
structure TransactionOutput where
  value : Int
  scriptPubKey : List Nat
  deriving DecidableEq, Repr

/-- Failures of the multisig skeleton reconstruction. -/
inductive SkelErr where
  /-- `chainhash.ErrHashStrSize`: the hex string exceeds 64 characters. -/
  | hashStrSize
  /-- Go run-time panic from `fee / len(tx.TxOut)` with no outputs. -/
  | divByZero
  deriving DecidableEq, Repr

/-- `chainhash.NewHashFromStr(hex.EncodeToString(bs))`: fails when the hex
string is longer than 64 characters (more than 32 bytes); otherwise the bytes
are zero-padded at the front to 32 and reversed into little-endian order. -/
def newHashFromBytes (bs : List Nat) : Except SkelErr (List Nat) :=
  if 32 < bs.length then .error .hashStrSize
  else .ok (List.replicate (32 - bs.length) 0 ++ bs).reverse

/-- The input-parsing loop shared (textually duplicated) by
`CreateMultisigSignature` and `Multisign`: each `wallet.TransactionInput`
becomes a `wire.TxIn` (default sequence) for the parsed outpoint, stopping at
the first `NewHashFromStr` failure. -/
def parseMultisigIns : List TransactionInput → Except SkelErr (List TxIn)
  | [] => .ok []
  | i :: rest =>
    match newHashFromBytes i.outpointHash with
    | .error e => .error e
    | .ok h =>
      match parseMultisigIns rest with
      | .error e => .error e
      | .ok rest' =>
        .ok ({ prevHash := h, prevIndex := i.outpointIndex, sigScript := [],
               sequence := 0xffffffff : TxIn } :: rest')

/-- The transaction-skeleton reconstruction of
`ZendWallet.CreateMultisigSignature`: parse each input outpoint, copy the
outputs, subtract `fee / len(outputs)` from every output (a divide-by-zero
panic when there are no outputs), and BIP-69-sort. -/
def createMultisigSignatureSkeleton (ins : List TransactionInput)
    (outs : List TransactionOutput) (feePerByte : Nat) : Except SkelErr MsgTx :=
  match parseMultisigIns ins with
  | .error e => .error e
  | .ok txIns =>
    let txOuts := outs.map fun o => { value := o.value, pkScript := o.scriptPubKey : TxOut }
    let estimatedSize := estimateSerializeSize ins.length txOuts false .p2sh2of3
    let fee := estimatedSize * feePerByte
    if txOuts.length = 0 then .error .divByZero
    else
      let feePerOutput := fee / txOuts.length
      let txOuts := txOuts.map fun o => { o with value := o.value - (feePerOutput : Int) }
      .ok (txsortInPlaceSort
        { version := txVersion, txIn := txIns, txOut := txOuts, lockTime := 0 })

/-- The transaction-skeleton reconstruction of `ZendWallet.Multisign`,
transcribed from its own body (textually the same construction as in
`CreateMultisigSignature`). -/
def multisignSkeleton (ins : List TransactionInput)
    (outs : List TransactionOutput) (feePerByte : Nat) : Except SkelErr MsgTx :=
  match parseMultisigIns ins with
  | .error e => .error e
  | .ok txIns =>
    let txOuts := outs.map fun o => { value := o.value, pkScript := o.scriptPubKey : TxOut }
    let estimatedSize := estimateSerializeSize ins.length txOuts false .p2sh2of3
    let fee := estimatedSize * feePerByte
    if txOuts.length = 0 then .error .divByZero
    else
      let feePerOutput := fee / txOuts.length
      let txOuts := txOuts.map fun o => { o with value := o.value - (feePerOutput : Int) }
      .ok (txsortInPlaceSort
        { version := txVersion, txIn := txIns, txOut := txOuts, lockTime := 0 })

/-- `txscript.ScriptBuilder.AddData`'s canonical push encoding: zero-length
data (and a single zero byte) become `OP_0`, single bytes 1–16 become
`OP_1`–`OP_16`, the byte `0x81` becomes `OP_1NEGATE`, and longer data uses
`OP_DATA_n` / `OP_PUSHDATA1` / `OP_PUSHDATA2` / `OP_PUSHDATA4`. -/
def canonicalPushData (d : List Nat) : List Nat :=
  match d with
  | [] => [0x00]
  | [b] =>
    if b = 0 then [0x00]
    else if b ≤ 16 then [0x50 + b]
    else if b = 0x81 then [0x4f]
    else [0x01, b]
  | _ =>
    let n := d.length
    if n < 0x4c then [n] ++ d
    else if n ≤ 0xff then [0x4c, n] ++ d
    else if n ≤ 0xffff then [0x4d, n % 256, n / 256] ++ d
    else [0x4e, n % 256, n / 256 % 256, n / 65536 % 256, n / 16777216 % 256] ++ d

/-- Failures of `ZendWallet.Multisign` past skeleton reconstruction. -/
inductive MsErr where
  | skel (e : SkelErr)
  /-- `ScriptBuilder.Script()` error (a push exceeding the 520-byte script
  element limit). -/
  | scriptBuildFail
  /-- `SendRawTransaction` failure. -/
  | broadcastFail
  deriving DecidableEq, Repr

/-- The signature-script assembly of one `Multisign` input:
`OP_0 <sig1> <sig2> <redeemScript>`.  `ScriptBuilder` records an error when a
pushed element exceeds `MaxScriptElementSize` (520 bytes); the 10000-byte
total-script limit is unreachable with three such pushes. -/
def multisignScriptSig (sig1 sig2 redeemScript : List Nat) : Except MsErr (List Nat) :=
  if 520 < sig1.length ∨ 520 < sig2.length ∨ 520 < redeemScript.length then
    .error .scriptBuildFail
  else
    .ok ([0x00] ++ canonicalPushData sig1 ++ canonicalPushData sig2 ++
      canonicalPushData redeemScript)

/-- The per-input signature lookup of `Multisign`: scan the whole signature
list, keeping the last entry whose index matches; a missing index leaves the
Go `nil` slice, i.e. the empty byte string. -/
def lastMatchingSig (sigs : List Signature) (i : Nat) : List Nat :=
  sigs.foldl (fun acc s => if s.inputIndex = i then s.signature else acc) []

/-- The `for i, input := range tx.TxIn` loop of `Multisign`: set every input's
signature script to `OP_0 <sigA_i> <sigB_i> <redeemScript>`. -/
def assembleSigScripts (sigs1 sigs2 : List Signature) (redeemScript : List Nat) :
    Nat → List TxIn → Except MsErr (List TxIn)
  | _, [] => .ok []
  | i, input :: rest =>
    match multisignScriptSig (lastMatchingSig sigs1 i) (lastMatchingSig sigs2 i)
        redeemScript with
    | .error e => .error e
    | .ok scriptSig =>
      match assembleSigScripts sigs1 sigs2 redeemScript (i + 1) rest with
      | .error e => .error e
      | .ok rest' => .ok ({ input with sigScript := scriptSig } :: rest')

/-- Result of `Multisign`: the returned value plus the number of
`SendRawTransaction` calls issued.  The Go function returns the wire
serialization of the transaction; the serialization is injective, so the
transaction itself is returned here. -/
structure MultisignOutcome where
  result : Except MsErr MsgTx
  broadcastAttempts : Nat
  deriving Repr

/-- `ZendWallet.Multisign(ins, outs, sigs1, sigs2, redeemScript, feePerByte,
broadcast)`: rebuild the skeleton, assemble each input's signature script
from whatever matching-index signatures exist (an input with no match gets an
`OP_0` placeholder in the slot — no error is raised), then broadcast when
asked.  `sendRaw` is the node's accept/reject verdict. -/
def multisign (ins : List TransactionInput) (outs : List TransactionOutput)
    (sigs1 sigs2 : List Signature) (redeemScript : List Nat) (feePerByte : Nat)
    (broadcast : Bool) (sendRaw : MsgTx → Bool) : MultisignOutcome :=
  match multisignSkeleton ins outs feePerByte with
  | .error e => ⟨.error (.skel e), 0⟩
  | .ok tx =>
    match assembleSigScripts sigs1 sigs2 redeemScript 0 tx.txIn with
    | .error e => ⟨.error e, 0⟩
    | .ok txIns =>
      let tx := { tx with txIn := txIns }
      if broadcast then
        if sendRaw tx then ⟨.ok tx, 1⟩ else ⟨.error .broadcastFail, 1⟩
      else ⟨.ok tx, 0⟩

/-- `wallet.FeeLevel` (the first constructor's spelling follows the
`wallet-interface` constant `PRIOIRTY`; `FEE_BUMP` is the level the
`GetFeePerByte` switch does not recognize). -/
inductive FeeLevel where
  | prioirty
  | normal
  | economic
  | feeBump
  deriving DecidableEq, Repr

/-- `ZendWallet.GetFeePerByte`: map the level to a confirmation-target block
count (priority→1, normal→3, economic→6; anything else returns the default 50
immediately), ask the node's `estimatefee` oracle, and fall back to 50 when
the call fails, the reply does not parse as an integer (both are `oracle _ =
none` here), or the parsed fee-per-kb is non-positive; otherwise return
fee-per-kb divided by 1000 (truncating integer division). -/
def getFeePerByte (oracle : Nat → Option Int) (level : FeeLevel) : Nat :=
  let defaultFee := 50
  let nBlocks? : Option Nat := match level with
    | .prioirty => some 1
    | .normal => some 3
    | .economic => some 6
    | .feeBump => none
  match nBlocks? with
  | none => defaultFee
  | some n =>
    match oracle n with
    | none => defaultFee
    | some feePerKb => if feePerKb ≤ 0 then defaultFee else (feePerKb / 1000).toNat

/-- Watch-address state of the wallet: whether `initChan` has been closed,
the `addrsToWatch` queue, and the log of `importaddress` RPC registrations
issued to the node, in order. -/
structure WatchState where
  gateOpen : Bool
  addrsToWatch : List Nat
  imported : List Nat
  deriving DecidableEq, Repr

/-- `ZendWallet.addWatchedScript` (lowercase): the `importaddress` RPC call,
logged in registration order. -/
def importAddressRPC (s : WatchState) (addr : Nat) : WatchState :=
  { s with imported := s.imported ++ [addr] }

/-- `ZendWallet.AddWatchedScript`: extract the address from the script
(`ExtractPkScriptAddrs`, supplied as `extract`; modelled from the spec as an
arbitrary partial script-to-address decoding — failure returns the error);
then `select` on `initChan`: registered immediately when the gate is open,
appended to `addrsToWatch` otherwise.  The returned `Bool` is the error flag. -/
def addWatchedScript (extract : List Nat → Option Nat) (s : WatchState)
    (script : List Nat) : WatchState × Bool :=
  match extract script with
  | none => (s, true)
  | some addr =>
    if s.gateOpen then (importAddressRPC s addr, false)
    else ({ s with addrsToWatch := s.addrsToWatch ++ [addr] }, false)

/-- The gate-opening step of `ZendWallet.Start`: `close(initChan)` followed by
`addQueuedWatchAddresses`, which registers every queued address in queue
order. -/
def openGate (s : WatchState) : WatchState :=
  let s' : WatchState := { s with gateOpen := true }
  s'.addrsToWatch.foldl importAddressRPC s'

/-- `GetTransaction` reply fields that `BumpFee` consumes. -/
structure BumpTxInfo where
  confirmations : Int
  deriving DecidableEq, Repr

/-- One `listunspent` entry as consumed by `BumpFee`.  The three `Option`
fields model the results of `hex.DecodeString(u.ScriptPubKey)`,
`DecodeAddress(u.Address)` and `DumpPrivKey(addr)`; `none` is the failure the
loop skips with `continue`.  (`chainhash.NewHashFromStr(u.TxID)` cannot fail
on the entry whose id equals a well-formed txid, and the `float64` amount
conversion is irrelevant to the claims.) -/
structure BumpUnspent where
  txid : List Nat
  vout : Nat
  confirmations : Int
  amount : Int
  scriptPubKey : Option (List Nat)
  address : Option Nat
  privKey : Option Nat
  deriving DecidableEq, Repr

/-- Errors returned by `BumpFee`. -/
inductive BumpErr where
  /-- a `GetTransaction` / `ListUnspent` RPC failure, returned as-is. -/
  | rpcFail
  /-- `spvwallet.BumpFeeAlreadyConfirmedError`. -/
  | alreadyConfirmed
  /-- `spvwallet.BumpFeeNotFoundError`. -/
  | notFound
  /-- a `SweepAddress` failure, returned as-is. -/
  | sweepFail
  deriving DecidableEq, Repr

/-- Node environment of `BumpFee`.  `sweep` is `SweepAddress` on the
reconstructed UTXO (it builds, signs and broadcasts the replacement
transaction; every broadcast `BumpFee` can cause goes through it). -/
structure BumpEnv where
  getTransaction : Except Unit BumpTxInfo
  listUnspent : Except Unit (List BumpUnspent)
  sweep : BumpUnspent → Except Unit (List Nat)

/-- Result of `BumpFee`: the returned value plus the number of `SweepAddress`
invocations (hence broadcast attempts). -/
structure BumpOutcome where
  result : Except BumpErr (List Nat)
  sweepCalls : Nat
  deriving Repr

/-- The `for _, u := range unspent` loop of `BumpFee`: on the matching txid,
re-check confirmations, skip the entry (`continue`) when any of the decode /
key-export steps fails, and otherwise sweep; reaching the end yields
`BumpFeeNotFoundError`. -/
def bumpLoop (env : BumpEnv) (txid : List Nat) : List BumpUnspent → BumpOutcome
  | [] => ⟨.error .notFound, 0⟩
  | u :: rest =>
    if u.txid = txid then
      if 0 < u.confirmations then ⟨.error .alreadyConfirmed, 0⟩
      else
        match u.scriptPubKey, u.address, u.privKey with
        | some _, some _, some _ =>
          match env.sweep u with
          | .error _ => ⟨.error .sweepFail, 1⟩
          | .ok newTxid => ⟨.ok newTxid, 1⟩
        | _, _, _ => bumpLoop env txid rest
    else bumpLoop env txid rest

/-- `ZendWallet.BumpFee(txid)`: fetch the transaction (propagating RPC
failure), reject already-confirmed transactions, then scan the unspent list
for the txid. -/
def bumpFee (env : BumpEnv) (txid : List Nat) : BumpOutcome :=
  match env.getTransaction with
  | .error _ => ⟨.error .rpcFail, 0⟩
  | .ok tx =>
    if 0 < tx.confirmations then ⟨.error .alreadyConfirmed, 0⟩
    else
      match env.listUnspent with
      | .error _ => ⟨.error .rpcFail, 0⟩
      | .ok unspent => bumpLoop env txid unspent

/-! ## Theorems -/

/-- `newHashFromBytes` can only fail with the hash-length error. -/
theorem newHashFromBytes_error {bs : List Nat} {e : SkelErr}
    (h : newHashFromBytes bs = .error e) : e = .hashStrSize := by
  unfold newHashFromBytes at h
  split at h
  · injection h with h'
    exact h'.symm
  · exact Except.noConfusion h

/-- The only failure the multisig input-parsing loop can produce is the
hash-length error. -/
theorem parseMultisigIns_error {ins : List TransactionInput} {e : SkelErr}
    (h : parseMultisigIns ins = .error e) : e = .hashStrSize := by
  induction ins with
  | nil => simp [parseMultisigIns] at h
  | cons i rest ih =>
    rw [parseMultisigIns] at h
    cases hnh : newHashFromBytes i.outpointHash with
    | error e' =>
      simp only [hnh] at h
      injection h with h'
      exact h' ▸ newHashFromBytes_error hnh
    | ok hsh =>
      simp only [hnh] at h
      cases hrest : parseMultisigIns rest with
      | error e2 =>
        simp only [hrest] at h
        injection h with h'
        exact ih (h' ▸ hrest)
      | ok t =>
        simp only [hrest] at h
        exact Except.noConfusion h

/-- The multisig input-parsing loop succeeds on every input list whose
outpoint hashes fit in 32 bytes. -/
theorem parseMultisigIns_ok {ins : List TransactionInput}
    (h : ∀ i ∈ ins, i.outpointHash.length ≤ 32) :
    ∃ t, parseMultisigIns ins = .ok t := by
  induction ins with
  | nil => exact ⟨[], rfl⟩
  | cons i rest ih =>
    obtain ⟨t, ht⟩ := ih fun j hj => h j (List.mem_cons_of_mem i hj)
    have hi : ¬ 32 < i.outpointHash.length := by
      simpa using h i (List.mem_cons_self i rest)
    have hnb : newHashFromBytes i.outpointHash =
        .ok (List.replicate (32 - i.outpointHash.length) 0 ++ i.outpointHash).reverse := by
      rw [newHashFromBytes, if_neg hi]
    refine ⟨⟨(List.replicate (32 - i.outpointHash.length) 0 ++ i.outpointHash).reverse,
      i.outpointIndex, [], 0xffffffff⟩ :: t, ?_⟩
    simp only [parseMultisigIns, hnb, ht]

/-- The two multisig skeleton embeddings are the same function (the loop
bodies in the Go source are textually identical); helper form used by other
proofs. -/
theorem skeletonEq : multisignSkeleton = createMultisigSignatureSkeleton := rfl

/-- C6: `CreateMultisigSignature` and `Multisign`, given the same
`(inputs, outputs, feePerByte)`, reconstruct identical transaction skeletons:
both build the same input and output lists, subtract the same
`fee / len(outputs)` amount from every output, and apply the same BIP-69
sort, so the skeleton is a pure function of the arguments and the two
embeddings are equal. -/
theorem multisig_skeletons_agree (ins : List TransactionInput)
    (outs : List TransactionOutput) (feePerByte : Nat) :
    createMultisigSignatureSkeleton ins outs feePerByte =
      multisignSkeleton ins outs feePerByte := rfl

/-- C7: `GetFeePerByte` maps priority→1, normal→3, economic→6 target blocks;
an unrecognized level, an oracle failure, or a non-positive oracle value
yields the default rate 50; otherwise the oracle's fee-per-kb is divided by
1000 with truncating integer division. -/
theorem getFeePerByte_spec (oracle : Nat → Option Int) :
    (∀ k, oracle 1 = some k → 0 < k →
      getFeePerByte oracle .prioirty = (k / 1000).toNat) ∧
    (∀ k, oracle 3 = some k → 0 < k →
      getFeePerByte oracle .normal = (k / 1000).toNat) ∧
    (∀ k, oracle 6 = some k → 0 < k →
      getFeePerByte oracle .economic = (k / 1000).toNat) ∧
    getFeePerByte oracle .feeBump = 50 ∧
    (oracle 1 = none → getFeePerByte oracle .prioirty = 50) ∧
    (oracle 3 = none → getFeePerByte oracle .normal = 50) ∧
    (oracle 6 = none → getFeePerByte oracle .economic = 50) ∧
    (∀ k, oracle 1 = some k → k ≤ 0 → getFeePerByte oracle .prioirty = 50) ∧
    (∀ k, oracle 3 = some k → k ≤ 0 → getFeePerByte oracle .normal = 50) ∧
    (∀ k, oracle 6 = some k → k ≤ 0 → getFeePerByte oracle .economic = 50) := by
  refine ⟨?_, ?_, ?_, rfl, ?_, ?_, ?_, ?_, ?_, ?_⟩ <;>
    first
      | (intro k hk hpos
         simp only [getFeePerByte, hk]
         rw [if_neg (by omega)])
      | (intro h; simp [getFeePerByte, h])
      | (intro k hk hnonpos
         simp only [getFeePerByte, hk]
         rw [if_pos hnonpos])

/-- Witness for C7 at a concrete oracle: a 1999-satoshi-per-kb estimate
truncates to 1 satoshi per byte. -/
theorem getFeePerByte_spec_witness :
    getFeePerByte (fun _ => some 1999) .normal = ((1999 : Int) / 1000).toNat :=
  (getFeePerByte_spec (fun _ => some 1999)).2.1 1999 rfl (by decide)

/-- C10: `CreateMultisigSignature` and `Multisign` compute the per-output fee
as `fee / len(outputs)` with no guard: with a non-empty output list the
division is well-defined (the divide-by-zero branch is unreachable), and with
an empty output list — once every outpoint hash parses — both skeleton
reconstructions hit the divide-by-zero branch of the total embedding
(a run-time panic in the Go code). -/
theorem multisig_feePerOutput_division (ins : List TransactionInput)
    (outs : List TransactionOutput) (fee : Nat) :
    (outs ≠ [] →
      createMultisigSignatureSkeleton ins outs fee ≠ .error .divByZero ∧
      multisignSkeleton ins outs fee ≠ .error .divByZero) ∧
    ((∀ i ∈ ins, i.outpointHash.length ≤ 32) →
      createMultisigSignatureSkeleton ins [] fee = .error .divByZero ∧
      multisignSkeleton ins [] fee = .error .divByZero) := by
  constructor
  · intro hne
    have h1 : createMultisigSignatureSkeleton ins outs fee ≠ .error .divByZero := by
      unfold createMultisigSignatureSkeleton
      cases hp : parseMultisigIns ins with
      | error e =>
        have he := parseMultisigIns_error hp
        subst he
        simp [hp]
      | ok t =>
        simp only [hp, List.length_map]
        rw [if_neg (by simp only [List.length_eq_zero]; exact hne)]
        simp
    exact ⟨h1, by rw [skeletonEq]; exact h1⟩
  · intro hlen
    obtain ⟨t, ht⟩ := parseMultisigIns_ok hlen
    have h1 : createMultisigSignatureSkeleton ins [] fee = .error .divByZero := by
      simp [createMultisigSignatureSkeleton, ht]
    exact ⟨h1, by rw [skeletonEq]; exact h1⟩

/-- Witness for C10: one output keeps the division defined; no outputs reach
the divide-by-zero branch in both operations. -/
theorem multisig_feePerOutput_division_witness :
    (createMultisigSignatureSkeleton [⟨[1], 0⟩] [⟨5, [1, 2, 3]⟩] 7 ≠
        .error .divByZero ∧
      multisignSkeleton [⟨[1], 0⟩] [⟨5, [1, 2, 3]⟩] 7 ≠ .error .divByZero) ∧
    (createMultisigSignatureSkeleton [⟨[1], 0⟩] [] 7 = .error .divByZero ∧
      multisignSkeleton [⟨[1], 0⟩] [] 7 = .error .divByZero) :=
  ⟨(multisig_feePerOutput_division [⟨[1], 0⟩] [⟨5, [1, 2, 3]⟩] 7).1 (by decide),
   (multisig_feePerOutput_division [⟨[1], 0⟩] [] 7).2 (by decide)⟩

/-- Registering a list of addresses appends them, in order, to the RPC log. -/
theorem foldl_importAddressRPC (l : List Nat) :
    ∀ s : WatchState, (l.foldl importAddressRPC s).imported = s.imported ++ l := by
  induction l with
  | nil => intro s; simp
  | cons a l ih =>
    intro s
    simp [List.foldl_cons, ih, importAddressRPC]

/-- C8: before the gate opens, `AddWatchedScript` appends the extracted
address to the watch queue and registers nothing; opening the gate registers
every queued address with the node exactly once, in submission order; after
the gate opens, `AddWatchedScript` registers the address immediately and does
not enqueue it. -/
theorem addWatchedScript_gate_spec (extract : List Nat → Option Nat)
    (s : WatchState) (script : List Nat) (addr : Nat) :
    (s.gateOpen = false → extract script = some addr →
      addWatchedScript extract s script =
        ({ s with addrsToWatch := s.addrsToWatch ++ [addr] }, false)) ∧
    ((openGate s).imported = s.imported ++ s.addrsToWatch ∧
      (openGate s).gateOpen = true) ∧
    (s.gateOpen = true → extract script = some addr →
      addWatchedScript extract s script =
        ({ s with imported := s.imported ++ [addr] }, false)) := by
  refine ⟨?_, ⟨?_, ?_⟩, ?_⟩
  · intro hg he
    simp [addWatchedScript, he, hg]
  · show ((s.addrsToWatch).foldl importAddressRPC
      { s with gateOpen := true }).imported = s.imported ++ s.addrsToWatch
    rw [foldl_importAddressRPC]
  · show ((s.addrsToWatch).foldl importAddressRPC { s with gateOpen := true }).gateOpen = true
    have hfix : ∀ (l : List Nat) (t : WatchState),
        (l.foldl importAddressRPC t).gateOpen = t.gateOpen := by
      intro l
      induction l with
      | nil => intro t; rfl
      | cons a l ih => intro t; simp [List.foldl_cons, ih, importAddressRPC]
    rw [hfix]
  · intro hg he
    simp [addWatchedScript, he, hg, importAddressRPC]

/-- Witness for C8: a queued address before the gate, the flush, and an
immediate registration after the gate. -/
theorem addWatchedScript_gate_spec_witness :
    (addWatchedScript (fun _ => some 5) ⟨false, [3], []⟩ [9] =
      (⟨false, [3, 5], []⟩, false)) ∧
    ((openGate ⟨false, [3], []⟩).imported = [3] ∧
      (openGate ⟨false, [3], []⟩).gateOpen = true) ∧
    (addWatchedScript (fun _ => some 5) ⟨true, [], [3]⟩ [9] =
      (⟨true, [], [3, 5]⟩, false)) :=
  ⟨(addWatchedScript_gate_spec (fun _ => some 5) ⟨false, [3], []⟩ [9] 5).1 rfl rfl,
   (addWatchedScript_gate_spec (fun _ => some 5) ⟨false, [3], []⟩ [9] 5).2.1,
   (addWatchedScript_gate_spec (fun _ => some 5) ⟨true, [], [3]⟩ [9] 5).2.2 rfl rfl⟩

/-- A scan of an unspent list containing no entry for the txid ends in
`BumpFeeNotFoundError` with no sweep. -/
theorem bumpLoop_notFound (env : BumpEnv) (txid : List Nat) :
    ∀ us : List BumpUnspent, (∀ u ∈ us, u.txid ≠ txid) →
      bumpLoop env txid us = ⟨.error .notFound, 0⟩ := by
  intro us
  induction us with
  | nil => intro _; rfl
  | cons u rest ih =>
    intro h
    have hu : u.txid ≠ txid := h u (List.mem_cons_self u rest)
    simp only [bumpLoop, if_neg hu]
    exact ih fun v hv => h v (List.mem_cons_of_mem u hv)

/-- C9: `BumpFee` on a transaction reported with positive confirmations
returns `AlreadyConfirmed` without sweeping (hence without broadcasting);
`BumpFee` on an unconfirmed transaction absent from the node's unspent list
returns `UtxoNotFound` without sweeping. -/
theorem bumpFee_guards (env : BumpEnv) (txid : List Nat) :
    (∀ tx, env.getTransaction = .ok tx → 0 < tx.confirmations →
      bumpFee env txid = ⟨.error .alreadyConfirmed, 0⟩) ∧
    (∀ tx us, env.getTransaction = .ok tx → ¬ 0 < tx.confirmations →
      env.listUnspent = .ok us → (∀ u ∈ us, u.txid ≠ txid) →
      bumpFee env txid = ⟨.error .notFound, 0⟩) := by
  constructor
  · intro tx hget hconf
    simp only [bumpFee, hget, if_pos hconf]
  · intro tx us hget hconf hlist habsent
    simp only [bumpFee, hget, if_neg hconf, hlist]
    exact bumpLoop_notFound env txid us habsent

/-- Witness for C9: a confirmed transaction is refused, an unconfirmed one
missing from the unspent list reports not-found; neither sweeps. -/
theorem bumpFee_guards_witness :
    (bumpFee ⟨.ok ⟨3⟩, .ok [], fun _ => .ok []⟩ [7] =
      ⟨.error .alreadyConfirmed, 0⟩) ∧
    (bumpFee ⟨.ok ⟨0⟩, .ok [⟨[8], 0, 0, 5, none, none, none⟩], fun _ => .ok []⟩ [7] =
      ⟨.error .notFound, 0⟩) :=
  ⟨(bumpFee_guards ⟨.ok ⟨3⟩, .ok [], fun _ => .ok []⟩ [7]).1 ⟨3⟩ rfl (by decide),
   (bumpFee_guards ⟨.ok ⟨0⟩, .ok [⟨[8], 0, 0, 5, none, none, none⟩],
       fun _ => .ok []⟩ [7]).2 ⟨0⟩ [⟨[8], 0, 0, 5, none, none, none⟩] rfl (by decide) rfl
     (by decide)⟩

/-- C1 (code evaluation at the failing input): `Multisign` called with two
inputs while party B's signature list covers only index 0 does NOT fail — it
assembles input 1's signature script with an `OP_0` placeholder (`0x00`)
where the second signature push belongs, reports success, and attempts the
broadcast.  This contradicts the claimed fail-closed `SignatureMissing`
behaviour. -/
theorem multisign_missing_sig_silently_broadcasts :
    (multisign [⟨[1], 0⟩, ⟨[2], 0⟩] [⟨100000, List.replicate 25 7⟩]
      [⟨0, List.replicate 71 1⟩, ⟨1, List.replicate 71 2⟩] [⟨0, List.replicate 71 3⟩]
      (List.replicate 70 9) 0 true (fun _ => true)).broadcastAttempts = 1 ∧
    ((multisign [⟨[1], 0⟩, ⟨[2], 0⟩] [⟨100000, List.replicate 25 7⟩]
      [⟨0, List.replicate 71 1⟩, ⟨1, List.replicate 71 2⟩] [⟨0, List.replicate 71 3⟩]
      (List.replicate 70 9) 0 true (fun _ => true)).result.toOption.map
        fun tx => tx.txIn.map TxIn.sigScript) =
      some [[0x00] ++ canonicalPushData (List.replicate 71 1) ++
              canonicalPushData (List.replicate 71 3) ++
              canonicalPushData (List.replicate 70 9),
            [0x00] ++ canonicalPushData (List.replicate 71 2) ++ [0x00] ++
              canonicalPushData (List.replicate 70 9)] := by
  exact ⟨rfl, rfl⟩

/-- Value accumulation from an arbitrary seed. -/
theorem foldl_add_value (l : List Coin) :
    ∀ init : Int, l.foldl (fun acc c => acc + c.value) init = init + sumVal l := by
  induction l with
  | nil => intro init; simp [sumVal]
  | cons c rest ih =>
    intro init
    have h2 : sumVal (c :: rest) = 0 + c.value + sumVal rest := by
      show (c :: rest).foldl _ 0 = 0 + c.value + sumVal rest
      rw [List.foldl_cons, ih]
    rw [List.foldl_cons, ih, h2]
    omega

/-- `sumVal` over a cons. -/
theorem sumVal_cons (c : Coin) (l : List Coin) :
    sumVal (c :: l) = c.value + sumVal l := by
  have := foldl_add_value l (0 + c.value)
  simpa [sumVal, List.foldl_cons] using this

/-- `sumVal` over an appended element. -/
theorem sumVal_append_single (l : List Coin) (c : Coin) :
    sumVal (l ++ [c]) = sumVal l + c.value := by
  simp [sumVal, List.foldl_append]

/-- A list of non-negative-valued coins has non-negative total. -/
theorem sumVal_nonneg {l : List Coin} (h : ∀ c ∈ l, 0 ≤ c.value) : 0 ≤ sumVal l := by
  induction l with
  | nil => simp [sumVal]
  | cons c rest ih =>
    rw [sumVal_cons]
    have h1 := h c (List.mem_cons_self c rest)
    have h2 := ih fun x hx => h x (List.mem_cons_of_mem c hx)
    omega

/-- Insertion preserves membership. -/
theorem mem_insertByLt {α : Type} (lt : α → α → Bool) (a x : α) :
    ∀ l : List α, x ∈ insertByLt lt a l ↔ x = a ∨ x ∈ l := by
  intro l
  induction l with
  | nil => simp [insertByLt]
  | cons y ys ih =>
    simp only [insertByLt]
    split
    · simp only [List.mem_cons, ih]
      tauto
    · exact List.mem_cons

/-- Sorting preserves membership. -/
theorem mem_sortByLt {α : Type} (lt : α → α → Bool) (x : α) :
    ∀ l : List α, x ∈ sortByLt lt l ↔ x ∈ l := by
  intro l
  induction l with
  | nil => simp [sortByLt]
  | cons y ys ih =>
    simp only [sortByLt, mem_insertByLt, ih, List.mem_cons]

/-- Insertion preserves the total value. -/
theorem sumVal_insertByLt (lt : Coin → Coin → Bool) (a : Coin) :
    ∀ l, sumVal (insertByLt lt a l) = a.value + sumVal l := by
  intro l
  induction l with
  | nil => simp [insertByLt, sumVal_cons, sumVal]
  | cons y ys ih =>
    simp only [insertByLt]
    split
    · rw [sumVal_cons, ih, sumVal_cons]
      omega
    · rw [sumVal_cons, sumVal_cons]

/-- Sorting preserves the total value. -/
theorem sumVal_sortByLt (lt : Coin → Coin → Bool) :
    ∀ l, sumVal (sortByLt lt l) = sumVal l := by
  intro l
  induction l with
  | nil => rfl
  | cons y ys ih =>
    simp only [sortByLt, sumVal_insertByLt, ih, sumVal_cons]

/-- A successful prefix scan reaches the target (for non-negative minimum
change). -/
theorem minIndexScan_ok_ge {target minChange : Int} (hmc : 0 ≤ minChange) :
    ∀ (coins : List Coin) (fuel : Nat) (t0 : Int) (acc sel : List Coin) (tot : Int),
      minIndexScan target minChange fuel coins t0 acc = .ok (sel, tot) →
      target ≤ tot := by
  intro coins
  induction coins with
  | nil =>
    intro fuel t0 acc sel tot h
    cases fuel <;> simp [minIndexScan] at h
  | cons c rest ih =>
    intro fuel t0 acc sel tot h
    cases fuel with
    | zero => simp [minIndexScan] at h
    | succ m =>
      simp only [minIndexScan] at h
      split at h
      · rename_i hsat
        injection h with h'
        injection h' with h1 h2
        subst h2
        rcases hsat with he | hge <;> omega
      · exact ih m _ _ sel tot h

/-- A successful prefix scan's total is bounded by the seed plus the list
total (for non-negative coin values). -/
theorem minIndexScan_ok_le {target minChange : Int} :
    ∀ (coins : List Coin), (∀ c ∈ coins, 0 ≤ c.value) →
      ∀ (fuel : Nat) (t0 : Int) (acc sel : List Coin) (tot : Int),
        minIndexScan target minChange fuel coins t0 acc = .ok (sel, tot) →
        tot ≤ t0 + sumVal coins := by
  intro coins
  induction coins with
  | nil =>
    intro _ fuel t0 acc sel tot h
    cases fuel <;> simp [minIndexScan] at h
  | cons c rest ih =>
    intro hv fuel t0 acc sel tot h
    have hrest : ∀ x ∈ rest, 0 ≤ x.value := fun x hx => hv x (List.mem_cons_of_mem c hx)
    have hc : 0 ≤ c.value := hv c (List.mem_cons_self c rest)
    have hr0 : 0 ≤ sumVal rest := sumVal_nonneg hrest
    cases fuel with
    | zero => simp [minIndexScan] at h
    | succ m =>
      simp only [minIndexScan] at h
      rw [sumVal_cons]
      split at h
      · injection h with h'
        injection h' with h1 h2
        omega
      · have := ih hrest m _ _ sel tot h
        omega

/-- A successful prefix scan's returned selection totals exactly the returned
amount (relative to the seed and accumulator). -/
theorem minIndexScan_ok_sum {target minChange : Int} :
    ∀ (coins : List Coin) (fuel : Nat) (t0 : Int) (acc sel : List Coin) (tot : Int),
      minIndexScan target minChange fuel coins t0 acc = .ok (sel, tot) →
      sumVal sel + t0 = sumVal acc + tot := by
  intro coins
  induction coins with
  | nil =>
    intro fuel t0 acc sel tot h
    cases fuel <;> simp [minIndexScan] at h
  | cons c rest ih =>
    intro fuel t0 acc sel tot h
    cases fuel with
    | zero => simp [minIndexScan] at h
    | succ m =>
      simp only [minIndexScan] at h
      split at h
      · injection h with h'
        injection h' with h1 h2
        subst h1
        rw [sumVal_append_single]
        omega
      · have := ih m _ _ sel tot h
        rw [sumVal_append_single] at this
        omega

/-- A successful `MaxValueAgeCoinSelector` run reaches the target and its
selection totals the returned amount. -/
theorem maxValueAgeCoinSelect_ok {maxInputs : Nat} {minChange target : Int}
    {coins sel : List Coin} {tot : Int} (hmc : 0 ≤ minChange)
    (h : maxValueAgeCoinSelect maxInputs minChange target coins = .ok (sel, tot)) :
    target ≤ tot ∧ sumVal sel = tot := by
  unfold maxValueAgeCoinSelect at h
  refine ⟨minIndexScan_ok_ge hmc _ _ _ _ _ _ h, ?_⟩
  have := minIndexScan_ok_sum _ _ _ _ _ _ h
  have hz : sumVal ([] : List Coin) = 0 := rfl
  omega

/-- A successful `MaxValueAgeCoinSelector` run cannot exceed the coin set's
total (for non-negative coin values). -/
theorem maxValueAgeCoinSelect_le {maxInputs : Nat} {minChange target : Int}
    {coins sel : List Coin} {tot : Int} (hv : ∀ c ∈ coins, 0 ≤ c.value)
    (h : maxValueAgeCoinSelect maxInputs minChange target coins = .ok (sel, tot)) :
    tot ≤ sumVal coins := by
  unfold maxValueAgeCoinSelect at h
  have hv' : ∀ c ∈ sortByLt byValueAgeDescLt coins, 0 ≤ c.value :=
    fun c hc => hv c ((mem_sortByLt _ _ _).1 hc)
  have hle := minIndexScan_ok_le _ hv' _ _ _ _ _ h
  rw [sumVal_sortByLt] at hle
  omega

/-- The wallet's input source fails with `ErrorInsuffientFunds` whenever the
coin set's total is short of the requested target. -/
theorem inputSource_insufficient {coins : List Coin} {target : Int}
    (hv : ∀ c ∈ coins, 0 ≤ c.value) (hlt : sumVal coins < target) :
    inputSource coins target = .error .insufficientFundsSelect := by
  unfold inputSource
  cases hsel : maxValueAgeCoinSelect 10000 0 target coins with
  | error e => rfl
  | ok p =>
    obtain ⟨sel, tot⟩ := p
    have h1 := (maxValueAgeCoinSelect_ok (by norm_num) hsel).1
    have h2 := maxValueAgeCoinSelect_le hv hsel
    exact absurd hlt (by omega)

/-- Invariant of every successful fee-negotiation run: the total input covers
the target amount plus the fee recomputed from the returned input count, and
the outputs are either exactly the requested ones (no change) or the
requested ones plus a single non-dust, non-zero change output with a script
no larger than a P2PKH script. -/
theorem nutLoop_ok_inv
    (fi : Int → Except TxErr (Int × List TxIn × List (List Nat)))
    (fc : Except TxErr (List Nat)) (outs : List TxOut) (kb ta : Int) :
    ∀ (fuel : Nat) (tf : Int) (r : AuthoredTx),
      nutLoop fi fc outs kb ta fuel tf = .ok r →
      ta + feeForSerializeSize kb
          (estimateSerializeSize r.tx.txIn.length outs true .p2pkh) ≤ r.totalInput ∧
      ((r.tx.txOut = outs ∧ r.changeIndex = -1) ∨
        ∃ cs, r.tx.txOut = outs ++
            [⟨r.totalInput - ta - feeForSerializeSize kb
              (estimateSerializeSize r.tx.txIn.length outs true .p2pkh), cs⟩] ∧
          r.changeIndex = (outs.length : Int) ∧
          isDustAmount (r.totalInput - ta - feeForSerializeSize kb
            (estimateSerializeSize r.tx.txIn.length outs true .p2pkh))
            p2pkhOutputSize defaultRelayFeePerKb = false ∧
          r.totalInput - ta - feeForSerializeSize kb
            (estimateSerializeSize r.tx.txIn.length outs true .p2pkh) ≠ 0 ∧
          cs.length ≤ p2pkhPkScriptSize) := by
  intro fuel
  induction fuel with
  | zero =>
    intro tf r h
    simp [nutLoop] at h
  | succ m ih =>
    intro tf r h
    rw [nutLoop] at h
    cases hfetch : fi (ta + tf) with
    | error e =>
      simp only [hfetch] at h
      cases h
    | ok trip =>
      obtain ⟨a, ins, scr⟩ := trip
      simp only [hfetch] at h
      split at h
      · cases h
      · rename_i hlt
        split at h
        · exact ih _ r h
        · rename_i hrem
          split at h
          · rename_i hchg
            cases hfc : fc with
            | error e =>
              simp only [hfc] at h
              cases h
            | ok cs =>
              simp only [hfc] at h
              split at h
              · cases h
              · rename_i hlen
                injection h with h'
                subst h'
                refine ⟨by dsimp only; simp only [not_lt] at hrem; omega,
                  Or.inr ⟨cs, ?_, rfl, ?_, ?_, by omega⟩⟩
                · simp
                · exact hchg.2
                · exact hchg.1
          · rename_i hchg
            injection h with h'
            subst h'
            exact ⟨by dsimp only; simp only [not_lt] at hrem; omega, Or.inl ⟨rfl, rfl⟩⟩

/-- C3: a successful coin selection always reaches its target (never a
partial selection) and totals the returned amount; the wallet's input source
fails with `ErrorInsuffientFunds` when the coins cannot cover the requested
amount; `NewUnsignedTransaction` over that input source returns the
insufficient-funds error whenever the coin total is below the target amount
plus the required fee; and no successful run ever returns a transaction whose
inputs fall short of the target plus the recomputed fee. -/
theorem insufficient_funds_never_short (coins : List Coin) (target : Int)
    (outputs : List TxOut) (feePerKb ta : Int)
    (fi : Int → Except TxErr (Int × List TxIn × List (List Nat)))
    (fc : Except TxErr (List Nat)) (fuel : Nat)
    (hpos : ∀ c ∈ coins, 0 ≤ c.value) :
    (∀ sel tot, maxValueAgeCoinSelect 10000 0 target coins = .ok (sel, tot) →
      target ≤ tot ∧ sumVal sel = tot) ∧
    (sumVal coins < target →
      inputSource coins target = .error .insufficientFundsSelect) ∧
    (1 ≤ fuel →
      sumVal coins < outputs.foldl (fun acc o => acc + o.value) 0 +
        feeForSerializeSize feePerKb (estimateSerializeSize 1 outputs true .p2pkh) →
      newUnsignedTransaction fuel outputs feePerKb (inputSource coins) fc =
        .error .insufficientFundsSelect) ∧
    (∀ fuelN tf r, nutLoop fi fc outputs feePerKb ta fuelN tf = .ok r →
      ta + feeForSerializeSize feePerKb
        (estimateSerializeSize r.tx.txIn.length outputs true .p2pkh) ≤ r.totalInput) := by
  refine ⟨fun sel tot h => maxValueAgeCoinSelect_ok le_rfl h,
    fun hlt => inputSource_insufficient hpos hlt, ?_,
    fun fuelN tf r h => (nutLoop_ok_inv fi fc outputs feePerKb ta fuelN tf r h).1⟩
  intro hfuel hshort
  obtain ⟨m, rfl⟩ : ∃ m, fuel = m + 1 := ⟨fuel - 1, by omega⟩
  unfold newUnsignedTransaction
  rw [nutLoop]
  simp only [inputSource_insufficient hpos hshort]

/-- Witness for C3: a single 60-value coin cannot fund a 100 target (input
source) nor a 1000-satoshi payment (transaction builder). -/
theorem insufficient_funds_never_short_witness :
    inputSource [⟨List.replicate 32 0, 0, 60, 1, []⟩] 100 =
      .error .insufficientFundsSelect ∧
    newUnsignedTransaction 1 [⟨1000, List.replicate 25 0⟩] 0
        (inputSource [⟨List.replicate 32 0, 0, 60, 1, []⟩]) (.ok []) =
      .error .insufficientFundsSelect :=
  ⟨(insufficient_funds_never_short [⟨List.replicate 32 0, 0, 60, 1, []⟩] 100
      [⟨1000, List.replicate 25 0⟩] 0 0 (fun _ => .ok (0, [], [])) (.ok []) 1
      (by decide)).2.1 (by decide),
   (insufficient_funds_never_short [⟨List.replicate 32 0, 0, 60, 1, []⟩] 100
      [⟨1000, List.replicate 25 0⟩] 0 0 (fun _ => .ok (0, [], [])) (.ok []) 1
      (by decide)).2.2.1 (by decide) (by decide)⟩

/-- C4 (amended): in a terminating iteration of `NewUnsignedTransaction`, a
zero change amount adds no change output; a non-zero change amount that is
dust also adds no change output and the construction still succeeds (the
excess is absorbed by the fee — it does not fail); only a non-zero, non-dust
change amount consults the change source, failing when the change script is
larger than a P2PKH output script and otherwise appending the change
output. -/
theorem nut_change_policy
    (fi : Int → Except TxErr (Int × List TxIn × List (List Nat)))
    (fc : Except TxErr (List Nat)) (outs : List TxOut) (kb ta : Int)
    (fuel : Nat) (tf a : Int) (ins : List TxIn) (scr : List (List Nat))
    (hfetch : fi (ta + tf) = .ok (a, ins, scr))
    (hlt : ¬ a < ta + tf)
    (hrem : ¬ a - ta <
      feeForSerializeSize kb (estimateSerializeSize ins.length outs true .p2pkh)) :
    (a - ta - feeForSerializeSize kb
        (estimateSerializeSize ins.length outs true .p2pkh) = 0 →
      nutLoop fi fc outs kb ta (fuel + 1) tf =
        .ok ⟨⟨txVersion, ins, outs, 0⟩, scr, a, -1⟩) ∧
    (a - ta - feeForSerializeSize kb
        (estimateSerializeSize ins.length outs true .p2pkh) ≠ 0 →
      isDustAmount (a - ta - feeForSerializeSize kb
        (estimateSerializeSize ins.length outs true .p2pkh))
        p2pkhOutputSize defaultRelayFeePerKb = true →
      nutLoop fi fc outs kb ta (fuel + 1) tf =
        .ok ⟨⟨txVersion, ins, outs, 0⟩, scr, a, -1⟩) ∧
    (a - ta - feeForSerializeSize kb
        (estimateSerializeSize ins.length outs true .p2pkh) ≠ 0 →
      isDustAmount (a - ta - feeForSerializeSize kb
        (estimateSerializeSize ins.length outs true .p2pkh))
        p2pkhOutputSize defaultRelayFeePerKb = false →
      (fc = .error .changeSourceFail →
        nutLoop fi fc outs kb ta (fuel + 1) tf = .error .changeSourceFail) ∧
      (∀ cs, fc = .ok cs → p2pkhPkScriptSize < cs.length →
        nutLoop fi fc outs kb ta (fuel + 1) tf = .error .oversizedChangeScript) ∧
      (∀ cs, fc = .ok cs → cs.length ≤ p2pkhPkScriptSize →
        nutLoop fi fc outs kb ta (fuel + 1) tf =
          .ok ⟨⟨txVersion, ins,
            outs ++ [⟨a - ta - feeForSerializeSize kb
              (estimateSerializeSize ins.length outs true .p2pkh), cs⟩], 0⟩,
            scr, a, (outs.length : Int)⟩)) := by
  refine ⟨?_, ?_, ?_⟩
  · intro h0
    rw [nutLoop]
    simp only [hfetch]
    rw [if_neg hlt, if_neg hrem, if_neg (by simp [h0])]
  · intro hne hdust
    rw [nutLoop]
    simp only [hfetch]
    rw [if_neg hlt, if_neg hrem, if_neg (by simp [hdust])]
  · intro hne hdust
    refine ⟨?_, ?_, ?_⟩
    · intro hfc
      rw [nutLoop]
      simp only [hfetch]
      rw [if_neg hlt, if_neg hrem, if_pos ⟨hne, hdust⟩]
      simp only [hfc]
    · intro cs hfc hlen
      rw [nutLoop]
      simp only [hfetch]
      rw [if_neg hlt, if_neg hrem, if_pos ⟨hne, hdust⟩]
      simp only [hfc]
      rw [if_pos hlen]
    · intro cs hfc hlen
      rw [nutLoop]
      simp only [hfetch]
      rw [if_neg hlt, if_neg hrem, if_pos ⟨hne, hdust⟩]
      simp only [hfc]
      rw [if_neg (by omega)]

/-- Counterexample for C4 as stated: a run of `NewUnsignedTransaction` whose
change amount is 100 (non-zero) and below the dust threshold succeeds with no
change output instead of failing. -/
theorem nut_dust_change_no_failure :
    newUnsignedTransaction 5 [⟨1000, List.replicate 25 0⟩] 0
        (fun _ => .ok (1100, [⟨List.replicate 32 0, 0, [], 0⟩], []))
        (.ok (List.replicate 25 1)) =
      .ok ⟨⟨txVersion, [⟨List.replicate 32 0, 0, [], 0⟩],
        [⟨1000, List.replicate 25 0⟩], 0⟩, [], 1100, -1⟩ ∧
    feeForSerializeSize 0
      (estimateSerializeSize 1 [⟨1000, List.replicate 25 0⟩] true .p2pkh) = 0 ∧
    (1100 - 1000 - 0 : Int) ≠ 0 ∧
    isDustAmount (1100 - 1000 - 0) p2pkhOutputSize defaultRelayFeePerKb = true := by
  refine ⟨?_, by decide, by decide, by decide⟩
  decide

/-- Witness for C4's amended theorem: a non-dust 9000 change amount appends a
change output with the fetched 25-byte script. -/
theorem nut_change_policy_witness :
    nutLoop (fun _ => .ok (10000, [⟨List.replicate 32 0, 0, [], 0⟩], []))
        (.ok (List.replicate 25 1)) [⟨1000, List.replicate 25 0⟩] 0 1000 1 0 =
      .ok ⟨⟨txVersion, [⟨List.replicate 32 0, 0, [], 0⟩],
        [⟨1000, List.replicate 25 0⟩] ++
          [⟨10000 - 1000 - feeForSerializeSize 0
            (estimateSerializeSize 1 [⟨1000, List.replicate 25 0⟩] true .p2pkh),
            List.replicate 25 1⟩], 0⟩,
        [], 10000, ((1 : Nat) : Int)⟩ :=
  ((nut_change_policy (fun _ => .ok (10000, [⟨List.replicate 32 0, 0, [], 0⟩], []))
      (.ok (List.replicate 25 1)) [⟨1000, List.replicate 25 0⟩] 0 1000 0 0 10000
      [⟨List.replicate 32 0, 0, [], 0⟩] [] rfl (by decide) (by decide)).2.2
    (by decide) (by decide)).2.2 (List.replicate 25 1) rfl (by decide)

/-- One loop step past the available total returns at once (fetch failure or
the short-input check), never the fuel sentinel. -/
theorem nutLoop_immediate
    (fi : Int → Except TxErr (Int × List TxIn × List (List Nat)))
    (fc : Except TxErr (List Nat)) (outs : List TxOut) (kb ta B : Int)
    (hB : ∀ t a ins scr, fi t = .ok (a, ins, scr) → a ≤ B)
    (hne : ∀ t, fi t ≠ .error .fuelExhausted)
    (fuel : Nat) (tf : Int) (hover : B < ta + tf) :
    nutLoop fi fc outs kb ta (fuel + 1) tf ≠ .error .fuelExhausted := by
  rw [nutLoop]
  cases hf : fi (ta + tf) with
  | error e =>
    simp only [hf]
    intro hc
    injection hc with h'
    exact hne _ (h' ▸ hf)
  | ok trip =>
    obtain ⟨a, ins, scr⟩ := trip
    simp only [hf]
    rw [if_pos (by have := hB _ _ _ _ hf; omega)]
    simp

/-- C5: the fee-negotiation loop terminates: an iteration that repeats does
so with a strictly larger fee target, and against any input source bounded by
a finite total `B` the loop returns (success or error) within
`(B - target - fee).toNat + 2` iterations — it never exhausts that much
fuel. -/
theorem feeLoop_terminates
    (fi : Int → Except TxErr (Int × List TxIn × List (List Nat)))
    (fc : Except TxErr (List Nat)) (outs : List TxOut) (kb ta B : Int)
    (hB : ∀ t a ins scr, fi t = .ok (a, ins, scr) → a ≤ B)
    (hne : ∀ t, fi t ≠ .error .fuelExhausted) :
    (∀ tf a ins scr, fi (ta + tf) = .ok (a, ins, scr) → ¬ a < ta + tf →
      a - ta < feeForSerializeSize kb
        (estimateSerializeSize ins.length outs true .p2pkh) →
      tf < feeForSerializeSize kb
        (estimateSerializeSize ins.length outs true .p2pkh)) ∧
    (∀ fuel tf, (B - ta - tf).toNat + 2 ≤ fuel →
      nutLoop fi fc outs kb ta fuel tf ≠ .error .fuelExhausted) := by
  constructor
  · intro tf a ins scr _ hge hlt
    omega
  · intro fuel
    induction fuel using Nat.strong_induction_on with
    | _ fuel ih =>
      intro tf hfuel
      obtain ⟨m, rfl⟩ : ∃ m, fuel = m + 1 := ⟨fuel - 1, by omega⟩
      rw [nutLoop]
      cases hf : fi (ta + tf) with
      | error e =>
        simp only [hf]
        intro hc
        injection hc with h'
        exact hne _ (h' ▸ hf)
      | ok trip =>
        obtain ⟨a, ins, scr⟩ := trip
        simp only [hf]
        by_cases hlt : a < ta + tf
        · rw [if_pos hlt]
          simp
        · rw [if_neg hlt]
          have haB := hB _ _ _ _ hf
          by_cases hrem : a - ta <
              feeForSerializeSize kb (estimateSerializeSize ins.length outs true .p2pkh)
          · rw [if_pos hrem]
            by_cases hover : B < ta +
                feeForSerializeSize kb (estimateSerializeSize ins.length outs true .p2pkh)
            · obtain ⟨k, rfl⟩ : ∃ k, m = k + 1 := ⟨m - 1, by omega⟩
              exact nutLoop_immediate fi fc outs kb ta B hB hne k _ hover
            · exact ih m (by omega) _ (by omega)
          · rw [if_neg hrem]
            split
            · cases hfc : fc with
              | error e => simp [hfc]
              | ok cs =>
                simp only [hfc]
                split <;> simp
            · simp

/-- Witness for C5: with a constant 100-total input source, 60 units of fuel
(≥ the 52 the bound requires) never exhaust. -/
theorem feeLoop_terminates_witness :
    nutLoop (fun _ => .ok (100, [], [])) (.ok []) [⟨50, [1]⟩] 1000 50 60 0 ≠
      .error .fuelExhausted :=
  (feeLoop_terminates (fun _ => .ok (100, [], [])) (.ok []) [⟨50, [1]⟩] 1000 50 100
    (fun t a ins scr h => by simp at h; omega)
    (fun t h => Except.noConfusion h)).2 60 0 (by decide)

/-- C2 (amended): the single-signature path enforces the dust invariant —
`buildTx` fails with the dust error before building whenever the payment
amount is dust for its script, and a change output added by
`NewUnsignedTransaction` is never dust — but the multisig skeleton builders
(`CreateMultisigSignature` / `Multisign`) apply the per-output fee
subtraction with no dust check at all: they succeed on any output values, so
a dust (or negative) output can be handed to signing without failure. -/
theorem dust_policy (env : BuildTxEnv) (fuel : Nat) (amount : Int)
    (fi : Int → Except TxErr (Int × List TxIn × List (List Nat)))
    (fc : Except TxErr (List Nat)) (outputs : List TxOut) (kb ta : Int)
    (ins : List TransactionInput) (outs : List TransactionOutput) (mfee : Nat) :
    (∀ h, env.blockHash = .ok h →
      isDustAmount amount env.payScript.length defaultRelayFeePerKb = true →
      buildTx env fuel amount = .error .dustAmount) ∧
    (∀ fuelN tf r, nutLoop fi fc outputs kb ta fuelN tf = .ok r →
      r.tx.txOut = outputs ∨ ∃ cs chg, r.tx.txOut = outputs ++ [⟨chg, cs⟩] ∧
        isDustAmount chg p2pkhOutputSize defaultRelayFeePerKb = false) ∧
    (outs ≠ [] → (∀ i ∈ ins, i.outpointHash.length ≤ 32) →
      (∃ tx, createMultisigSignatureSkeleton ins outs mfee = .ok tx) ∧
      (∃ tx, multisignSkeleton ins outs mfee = .ok tx)) := by
  refine ⟨?_, ?_, ?_⟩
  · intro h hbh hdust
    unfold buildTx
    simp only [hbh]
    rw [if_pos hdust]
  · intro fuelN tf r hr
    rcases (nutLoop_ok_inv fi fc outputs kb ta fuelN tf r hr).2 with hl | ⟨cs, hout, _, hnd, _, _⟩
    · exact Or.inl hl.1
    · exact Or.inr ⟨cs, _, hout, hnd⟩
  · intro hne hlen
    obtain ⟨t, ht⟩ := parseMultisigIns_ok hlen
    have h1 : ∃ tx, createMultisigSignatureSkeleton ins outs mfee = .ok tx := by
      unfold createMultisigSignatureSkeleton
      simp only [ht, List.length_map]
      rw [if_neg (by simp only [List.length_eq_zero]; exact hne)]
      exact ⟨_, rfl⟩
    exact ⟨h1, by rw [skeletonEq]; exact h1⟩

/-- Counterexample for C2 as stated: the `CreateMultisigSignature` skeleton
succeeds (and is handed to per-input signing) carrying an output worth 1
satoshi, far below the 546-satoshi dust floor of its 25-byte script —
construction does not fail before signing. -/
theorem multisig_skeleton_allows_dust :
    (createMultisigSignatureSkeleton [⟨[1], 0⟩] [⟨1, List.replicate 25 0⟩] 0).toOption.map
        (fun tx => tx.txOut.map TxOut.value) = some [1] ∧
    isDustAmount 1 25 defaultRelayFeePerKb = true := by
  exact ⟨rfl, by decide⟩

/-- Witness for C2's amended theorem: a 1-satoshi payment is refused as dust
by `buildTx`, while the multisig skeleton accepts a 1-satoshi output. -/
theorem dust_policy_witness :
    buildTx ⟨.ok [], List.replicate 25 0, [], 0, .ok [], fun tx => .ok tx⟩ 1 1 =
      .error .dustAmount ∧
    (∃ tx, createMultisigSignatureSkeleton [⟨[1], 0⟩] [⟨1, List.replicate 25 0⟩] 0 =
      .ok tx) :=
  ⟨(dust_policy ⟨.ok [], List.replicate 25 0, [], 0, .ok [], fun tx => .ok tx⟩ 1 1
      (fun _ => .ok (0, [], [])) (.ok []) [] 0 0 [⟨[1], 0⟩] [⟨1, List.replicate 25 0⟩]
      0).1 [] rfl (by decide),
   ((dust_policy ⟨.ok [], List.replicate 25 0, [], 0, .ok [], fun tx => .ok tx⟩ 1 1
      (fun _ => .ok (0, [], [])) (.ok []) [] 0 0 [⟨[1], 0⟩] [⟨1, List.replicate 25 0⟩]
      0).2.2 (by decide) (by decide)).1⟩

end Zend
